import Mathlib

/-!
Verification of the MCP financial-data assistant repository.

The development shallowly embeds the pure, decision-making parts of the
repository:

* the T-SQL query guard of src/mssqlserver/server.py (query_sql_mssql):
  a lexical prefix check followed by a row-limit rewrite;
* the prefix check of src/pgserver/server.py (query_sql);
* the entity resolvers resolve_stock_id_mssql and resolve_stock_industry of
  src/mssqlserver/server.py, and resolve_stock_id of src/pgserver/server.py,
  with the database table modelled as a list of records and each SQL query
  modelled by the corresponding list traversal (a fetch without ORDER BY is
  modelled deterministically as the first row in scan order);
* the tool-call orchestration loop chat() of mcp_runner.py and
  mssql_runner.py, with the language-model call and the tool dispatch taken
  as function parameters and the unbounded while-loop modelled with fuel.

Python string primitives are modelled on List Char: strip/lower are the
ASCII fragment of the Python behaviour (plus the full-width space U+3000 in
the whitespace class), which is the fragment the guarded keywords exercise.
-/

namespace MCP

/-! Python-style character classes and string primitives (on List Char). -/

/-- Whitespace recognised by Python str.strip and by the regex class
backslash-s, restricted to the characters that occur in this code base:
ASCII whitespace plus the full-width space U+3000. -/
def isPySpace (c : Char) : Bool :=
  c = ' ' || c = '\t' || c = '\n' || c = '\r' || c = '\x0b' || c = '\x0c' ||
    c = '　'

/-- Word characters for the regex word-boundary after the leading select. -/
def isWordChar (c : Char) : Bool :=
  c.isAlphanum || c = '_'

/-- Upper-case/lower-case ASCII letter pairs. -/
def ucPairs : List (Char × Char) :=
  [('A', 'a'), ('B', 'b'), ('C', 'c'), ('D', 'd'), ('E', 'e'), ('F', 'f'),
   ('G', 'g'), ('H', 'h'), ('I', 'i'), ('J', 'j'), ('K', 'k'), ('L', 'l'),
   ('M', 'm'), ('N', 'n'), ('O', 'o'), ('P', 'p'), ('Q', 'q'), ('R', 'r'),
   ('S', 's'), ('T', 't'), ('U', 'u'), ('V', 'v'), ('W', 'w'), ('X', 'x'),
   ('Y', 'y'), ('Z', 'z')]

/-- ASCII lower-casing of one character (the fragment of Python str.lower
exercised by the SQL keywords). -/
def pyLowerChar (c : Char) : Char :=
  match c with
  | 'A' => 'a' | 'B' => 'b' | 'C' => 'c' | 'D' => 'd' | 'E' => 'e'
  | 'F' => 'f' | 'G' => 'g' | 'H' => 'h' | 'I' => 'i' | 'J' => 'j'
  | 'K' => 'k' | 'L' => 'l' | 'M' => 'm' | 'N' => 'n' | 'O' => 'o'
  | 'P' => 'p' | 'Q' => 'q' | 'R' => 'r' | 'S' => 's' | 'T' => 't'
  | 'U' => 'u' | 'V' => 'v' | 'W' => 'w' | 'X' => 'x' | 'Y' => 'y'
  | 'Z' => 'z'
  | c => c

/-- Python str.lower (ASCII fragment). -/
def pyLower (l : List Char) : List Char := l.map pyLowerChar

/-- Python str.lstrip. -/
def lstrip (l : List Char) : List Char := l.dropWhile isPySpace

/-- Python str.rstrip. -/
def rstrip (l : List Char) : List Char := (l.reverse.dropWhile isPySpace).reverse

/-- Python str.strip. -/
def pyStrip (l : List Char) : List Char := rstrip (lstrip l)

/-- The value low = sql.strip().lower() computed by both query tools. -/
def lowered (s : String) : List Char := pyLower (pyStrip s.data)

/-- Boolean list-prefix test (Python str.startswith on the decomposed text). -/
def prefixB : List Char → List Char → Bool
  | [], _ => true
  | _ :: _, [] => false
  | p :: ps, c :: cs => p == c && prefixB ps cs

/-- Boolean substring test (the Python expression pat in text). -/
def containsB (p : List Char) : List Char → Bool
  | [] => prefixB p []
  | c :: cs => prefixB p (c :: cs) || containsB p cs

/-- Case-insensitive literal match (the regex engine matching the literal
select under re.I); returns the remainder after the match. -/
def matchCI : List Char → List Char → Option (List Char)
  | [], cs => some cs
  | _ :: _, [] => none
  | p :: ps, c :: cs => if pyLowerChar c = p then matchCI ps cs else none

/-- Word boundary of the regex at the position in front of the remainder. -/
def wordBoundary : List Char → Bool
  | [] => true
  | c :: _ => !(isWordChar c)

/-! The query guard of query_sql_mssql (src/mssqlserver/server.py). -/

/-- The replacement text SELECT TOP (limit) of the re.sub call. -/
def selectTopHead (limit : Nat) : List Char :=
  ("SELECT TOP (").data ++ (Nat.repr limit).data ++ [')']

/-- The appended text of the order-by branch:
OFFSET 0 ROWS FETCH NEXT limit ROWS ONLY, with its leading space. -/
def mssqlLimitSuffix (limit : Nat) : List Char :=
  (" OFFSET 0 ROWS FETCH NEXT ").data ++ (Nat.repr limit).data ++
    (" ROWS ONLY").data

/-- re.sub of the anchored pattern (whitespace-star select word-boundary,
case-insensitive, count 1) by SELECT TOP (limit): at most one replacement,
only at the very front of the text. -/
def reSubLeadingSelect (limit : Nat) (cs : List Char) : List Char :=
  match matchCI (("select").data) (cs.dropWhile isPySpace) with
  | some rem => if wordBoundary rem then selectTopHead limit ++ rem else cs
  | none => cs

/-- The rewrite step of query_sql_mssql after the prefix check: inject TOP
when no limiting keyword and no order by occur in low, append the
offset-fetch clause when an order by but no fetch next occurs, otherwise
leave the statement unchanged.  low is the trimmed lower-cased text of the
original statement. -/
def rewriteCore (limit : Nat) (low cs : List Char) : List Char :=
  if !containsB ((" top ").data) low && !containsB ((" fetch next ").data) low
      && !containsB ((" order by ").data) low then
    reSubLeadingSelect limit cs
  else if !containsB ((" fetch next ").data) low
      && containsB ((" order by ").data) low then
    cs ++ mssqlLimitSuffix limit
  else
    cs

/-- The guard and rewrite portion of query_sql_mssql: reject any statement
whose trimmed lower-cased text does not start with select or with, rewrite
the accepted statement. -/
def guardCore (limit : Nat) (cs : List Char) : Except (List Char) (List Char) :=
  let low := pyLower (pyStrip cs)
  if !(prefixB (("select").data) low || prefixB (("with").data) low) then
    Except.error (("Only SELECT / WITH statements are allowed").data)
  else
    Except.ok (rewriteCore limit low cs)

/-- String-level wrapper of the query_sql_mssql guard. -/
def query_sql_mssql_guard (sql : String) (limit : Nat) : Except String String :=
  match guardCore limit sql.data with
  | Except.error e => Except.error (String.mk e)
  | Except.ok r => Except.ok (String.mk r)

/-- The prefix check of query_sql (src/pgserver/server.py): accept only
statements whose trimmed lower-cased text starts with select, with or
explain; the accepted statement is executed unchanged. -/
def query_sql_pg_guard (sql : String) : Except String String :=
  if prefixB (("select").data) (lowered sql) ||
      prefixB (("with").data) (lowered sql) ||
      prefixB (("explain").data) (lowered sql) then
    Except.ok sql
  else
    Except.error "Only SELECT/WITH/EXPLAIN allowed."

/-! Entity resolvers.  The database tables are modelled as lists of records;
each SQL query of the source is modelled by the corresponding traversal of
the list, in the scan order in which the query presents the rows (a fetch
of the first row of an un-ordered result is modelled as the first row in
scan order). -/

/-- A row of the stScuSecuBasC table (the columns the resolver touches).
Nullable alias columns are modelled with Option; a NULL alias never
matches, as in the SQL where a REPLACE chain over NULL stays NULL. -/
structure SecuRec where
  id : Nat
  listCode : String
  name : Option String
  name3 : Option String
  name4 : Option String
  nameV2 : Option String
  nameAbbrV2 : Option String
deriving DecidableEq

/-- One row of the UNION ALL alias sub-query of resolve_stock_id_mssql. -/
structure AliasRow where
  id : Nat
  colname : String
  aliasVal : Option String
deriving DecidableEq

/-- The result dictionary of the resolvers: either the dictionary with keys
id, matched_column and matched_value, or the empty dictionary. -/
inductive Resolution where
  | found (id : Nat) (matchedColumn : String) (matchedValue : String)
  | empty
deriving DecidableEq

/-- Removal of ASCII space, full-width space and tab: the Python replace
chain on the keyword and the SQL REPLACE chain on the stored aliases. -/
def nosp (l : List Char) : List Char :=
  l.filter (fun c => !(c = ' ' || c = '　' || c = '\t'))

/-- The UNION ALL of the five alias columns, in the order the query lists
them: name, name3, name4, nameV2, nameAbbrV2. -/
def aliasRows (db : List SecuRec) : List AliasRow :=
  (db.map fun r => AliasRow.mk r.id "name" r.name) ++
  (db.map fun r => AliasRow.mk r.id "name3" r.name3) ++
  (db.map fun r => AliasRow.mk r.id "name4" r.name4) ++
  (db.map fun r => AliasRow.mk r.id "nameV2" r.nameV2) ++
  (db.map fun r => AliasRow.mk r.id "nameAbbrV2" r.nameAbbrV2)

/-- alias_ns = kw for a nullable alias (space-stripped equality). -/
def aliasNsEq (kwNs : List Char) (a : Option String) : Bool :=
  match a with
  | none => false
  | some s => nosp s.data == kwNs

/-- alias_ns LIKE percent-kw-percent for a nullable alias (space-stripped
substring; LIKE metacharacters inside the keyword are not modelled). -/
def aliasNsContains (kwNs : List Char) (a : Option String) : Bool :=
  match a with
  | none => false
  | some s => containsB kwNs (nosp s.data)

/-- matched_value of the alias branches: row value with Python strip. -/
def stripOptVal (a : Option String) : String :=
  match a with
  | none => ""
  | some s => String.mk (pyStrip s.data)

/-- resolve_stock_id_mssql (src/mssqlserver/server.py): priority chain of
exact listCode match, exact space-insensitive alias match, space-insensitive
substring alias match; the empty dictionary when nothing matches. -/
def resolve_stock_id_mssql (db : List SecuRec) (keyword : String) : Resolution :=
  let kwRaw := String.mk (pyStrip keyword.data)
  let kwNs := nosp (pyStrip keyword.data)
  match db.find? (fun r => r.listCode == kwRaw) with
  | some r => Resolution.found r.id "listCode" r.listCode
  | none =>
    match (aliasRows db).find? (fun t => aliasNsEq kwNs t.aliasVal) with
    | some t => Resolution.found t.id t.colname (stripOptVal t.aliasVal)
    | none =>
      match (aliasRows db).find? (fun t => aliasNsContains kwNs t.aliasVal) with
      | some t => Resolution.found t.id t.colname (stripOptVal t.aliasVal)
      | none => Resolution.empty

/-- A row of the misc.dbo.mtIndustryC table. -/
structure IndRec where
  id : Nat
  name : Option String
  nameEng : Option String
  nameAbbr : Option String
deriving DecidableEq

/-- One row of the UNION ALL alias sub-query of resolve_stock_industry;
the query filters out NULL aliases with IS NOT NULL, so the alias here is
a plain string. -/
structure IndRow where
  id : Nat
  colname : String
  aliasVal : String
deriving DecidableEq

/-- The UNION ALL of the three industry alias columns with their IS NOT
NULL filters, in query order: name, nameEng, nameAbbr. -/
def indRows (db : List IndRec) : List IndRow :=
  (db.filterMap fun r => r.name.map fun a => IndRow.mk r.id "name" a) ++
  (db.filterMap fun r => r.nameEng.map fun a => IndRow.mk r.id "nameEng" a) ++
  (db.filterMap fun r => r.nameAbbr.map fun a => IndRow.mk r.id "nameAbbr" a)

/-- Strict lexicographic order on character lists (the collation order of
the ORDER BY tie-break, modelled on code points). -/
def lexLt : List Char → List Char → Bool
  | [], [] => false
  | [], _ :: _ => true
  | _ :: _, [] => false
  | a :: as, b :: bs => decide (a < b) || (a == b && lexLt as bs)

/-- The ORDER BY LEN(alias), alias key comparison: shorter first, then
lexicographically earlier first. -/
def aliasKeyLt (a b : String) : Bool :=
  decide (a.length < b.length) || (a.length == b.length && lexLt a.data b.data)

/-- TOP (1) of the result ordered by LEN(alias), alias: the first row of
minimal key in scan order. -/
def pickFirstMin : List IndRow → Option IndRow
  | [] => none
  | t :: ts =>
    some (ts.foldl (fun best u => if aliasKeyLt u.aliasVal best.aliasVal then u else best) t)

/-- resolve_stock_industry (src/mssqlserver/server.py): exact alias match
first, then substring match ordered by shortest alias and lexicographic
tie-break; the empty dictionary when nothing matches. -/
def resolve_stock_industry (db : List IndRec) (keyword : String) : Resolution :=
  let kw := String.mk (pyStrip keyword.data)
  match (indRows db).find? (fun t => t.aliasVal == kw) with
  | some t => Resolution.found t.id t.colname (String.mk (pyStrip t.aliasVal.data))
  | none =>
    match pickFirstMin ((indRows db).filter
        (fun t => containsB kw.data t.aliasVal.data)) with
    | some t => Resolution.found t.id t.colname (String.mk (pyStrip t.aliasVal.data))
    | none => Resolution.empty

/-- A row of the stock_alias table of the Postgres backend. -/
structure StockAlias where
  stock_id : String
  aliasVal : String
deriving DecidableEq

/-- The Postgres resolver result: the row dictionary with keys stock_id and
match, or the empty dictionary. -/
inductive PgResolution where
  | found (stock_id : String) (matched : String)
  | empty
deriving DecidableEq

/-- alias ILIKE name with no wildcard in the name: case-insensitive
equality (ASCII fragment; LIKE metacharacters are not modelled). -/
def ilikeEq (a b : String) : Bool :=
  pyLower a.data == pyLower b.data

/-- ORDER BY similarity(alias, name) DESC LIMIT 1: the first row of maximal
similarity in scan order.  The similarity measure of the pg_trgm extension
is an external collaborator and is a parameter. -/
def pickFirstMax (sim : String → String → Nat) (name : String) :
    List StockAlias → Option StockAlias
  | [] => none
  | t :: ts =>
    some (ts.foldl
      (fun best u => if sim best.aliasVal name < sim u.aliasVal name then u else best) t)

/-- resolve_stock_id (src/pgserver/server.py): one query matching stock_id
exactly or alias case-insensitively, ordered by descending similarity; the
empty dictionary when no row matches. -/
def resolve_stock_id (db : List StockAlias) (sim : String → String → Nat)
    (name : String) : PgResolution :=
  match pickFirstMax sim name
      (db.filter (fun r => r.stock_id == name || ilikeEq r.aliasVal name)) with
  | some r => PgResolution.found r.stock_id r.aliasVal
  | none => PgResolution.empty

/-! The conversation orchestrator chat() of mcp_runner.py (and its twin in
mssql_runner.py).  The Azure model call and the MCP tool dispatch are
external collaborators and are parameters; the unbounded inner while-loop
is modelled with fuel. -/

/-- A message of the conversation history. -/
inductive Msg where
  | system (content : String)
  | user (content : String)
  | assistantText (content : String)
  | assistantCall (name arguments : String)
  | toolResult (name content : String)
deriving DecidableEq

/-- The polymorphic model response: plain text or a function call. -/
inductive ModelResponse where
  | text (content : String)
  | call (name arguments : String)
deriving DecidableEq

/-- The inner while-loop of chat() with an infallible tool dispatch: ask
the model; on a function call run the tool, append the call message and
the function-result message, and loop; on a text answer append it and
stop.  none models running out of fuel (the source loop is unbounded). -/
def chatTurn (llm : List Msg → ModelResponse) (runTool : String → String → String) :
    Nat → List Msg → Option (List Msg)
  | 0, _ => none
  | fuel + 1, msgs =>
    match llm msgs with
    | ModelResponse.text t => some (msgs ++ [Msg.assistantText t])
    | ModelResponse.call name args =>
      let result := runTool name args
      chatTurn llm runTool fuel
        (msgs ++ [Msg.assistantCall name args, Msg.toolResult name result])

/-- Outcome of a turn when tool dispatch can fail. -/
inductive TurnOutcome where
  | answered (history : List Msg)
  | failed (err : String) (history : List Msg)
  | outOfFuel
deriving DecidableEq

/-- The inner while-loop of chat() with a fallible tool dispatch: the
await of run_tool precedes both history appends in the source, so a
dispatch failure propagates with the history still as it was before the
model response. -/
def chatTurnE (llm : List Msg → ModelResponse)
    (runTool : String → String → Except String String) :
    Nat → List Msg → TurnOutcome
  | 0, _ => TurnOutcome.outOfFuel
  | fuel + 1, msgs =>
    match llm msgs with
    | ModelResponse.text t => TurnOutcome.answered (msgs ++ [Msg.assistantText t])
    | ModelResponse.call name args =>
      match runTool name args with
      | Except.error e => TurnOutcome.failed e msgs
      | Except.ok r =>
        chatTurnE llm runTool fuel
          (msgs ++ [Msg.assistantCall name args, Msg.toolResult name r])

/-- The two messages appended for one dispatched tool call: the assistant
function-call message and the function-result message with the same name. -/
def callBlock (p : String × String × String) : List Msg :=
  [Msg.assistantCall p.1 p.2.1, Msg.toolResult p.1 p.2.2]

/-- Recogniser of assistant function-call messages. -/
def isCallMsg : Msg → Bool
  | Msg.assistantCall _ _ => true
  | _ => false

/-- Recogniser of function-result messages. -/
def isResultMsg : Msg → Bool
  | Msg.toolResult _ _ => true
  | _ => false

/-- Fixture model for the orchestrator witnesses: request two tool calls,
then answer. -/
def demoLlm (msgs : List Msg) : ModelResponse :=
  if msgs.countP isResultMsg ≥ 2 then ModelResponse.text "done"
  else ModelResponse.call "add" "x"

/-- Fixture tool for the orchestrator witnesses. -/
def demoTool (_name _args : String) : String := "ok"

/-- Fixture model that always requests a tool call. -/
def demoLlmFail (_msgs : List Msg) : ModelResponse :=
  ModelResponse.call "query_sql" "q"

/-- Fixture tool whose dispatch always fails. -/
def demoToolFail (_name _args : String) : Except String String :=
  Except.error "backend unavailable"

/-! Helper lemmas about the string primitives. -/

theorem data_append (a b : String) : (a ++ b).data = a.data ++ b.data := rfl

theorem prefixB_nil (p : List Char) (h : prefixB p [] = true) : p = [] := by
  cases p with
  | nil => rfl
  | cons c cs => simp [prefixB] at h

theorem prefixB_refl_append (p x : List Char) : prefixB p (p ++ x) = true := by
  induction p with
  | nil => rfl
  | cons c cs ih => simp [prefixB, ih]

theorem prefixB_append_right (p a b : List Char) (h : prefixB p a = true) :
    prefixB p (a ++ b) = true := by
  induction p generalizing a with
  | nil => rfl
  | cons c cs ih =>
    cases a with
    | nil => simp [prefixB] at h
    | cons d ds =>
      simp [prefixB] at h
      simp [prefixB, h.1, ih ds h.2]

theorem prefixB_shrink (p s t : List Char) (h : prefixB p (s ++ t) = true)
    (hlen : p.length ≤ s.length) : prefixB p s = true := by
  induction p generalizing s with
  | nil => rfl
  | cons c cs ih =>
    cases s with
    | nil => simp at hlen
    | cons d ds =>
      simp [prefixB] at h
      simp at hlen
      simp [prefixB, h.1, ih ds h.2 hlen]

theorem prefixB_swap (p s t : List Char) (h : prefixB p (s ++ t) = true)
    (hlen : s.length ≤ p.length) : prefixB s p = true := by
  induction s generalizing p with
  | nil => rfl
  | cons d ds ih =>
    cases p with
    | nil => simp at hlen
    | cons c cs =>
      simp [prefixB] at h
      simp at hlen
      obtain ⟨h1, h2⟩ := h
      subst h1
      simp [prefixB, ih cs h2 hlen]

theorem prefixB_mem (p l : List Char) (h : prefixB p l = true) :
    ∀ c ∈ p, c ∈ l := by
  induction p generalizing l with
  | nil => simp
  | cons c cs ih =>
    cases l with
    | nil => simp [prefixB] at h
    | cons d ds =>
      simp [prefixB] at h
      intro x hx
      rcases List.mem_cons.1 hx with hx | hx
      · subst hx; exact h.1 ▸ List.mem_cons_self _ _
      · exact List.mem_cons_of_mem _ (ih ds h.2 x hx)

theorem containsB_of_prefixB (p l : List Char) (h : prefixB p l = true) :
    containsB p l = true := by
  cases l with
  | nil =>
    have := prefixB_nil p h
    subst this
    rfl
  | cons c cs => simp [containsB, h]

theorem containsB_append_left (p a b : List Char) (h : containsB p a = true) :
    containsB p (a ++ b) = true := by
  induction a with
  | nil =>
    have := prefixB_nil p h
    subst this
    cases b with
    | nil => rfl
    | cons c cs => simp [containsB, prefixB]
  | cons c cs ih =>
    simp only [containsB, Bool.or_eq_true] at h
    rcases h with h | h
    · simp only [List.cons_append, containsB, Bool.or_eq_true]
      exact Or.inl (prefixB_append_right _ _ _ h)
    · simp only [List.cons_append, containsB, Bool.or_eq_true]
      exact Or.inr (ih h)

theorem containsB_append_right (p a b : List Char) (h : containsB p b = true) :
    containsB p (a ++ b) = true := by
  induction a with
  | nil => simpa using h
  | cons c cs ih =>
    simp only [List.cons_append, containsB, Bool.or_eq_true]
    exact Or.inr ih

theorem containsB_split (p a b : List Char) (h : containsB p (a ++ b) = true)
    (hb : containsB p b = false) :
    ∃ x s, a = x ++ s ∧ s ≠ [] ∧ prefixB p (s ++ b) = true := by
  induction a with
  | nil => simp at h; rw [h] at hb; exact absurd hb (by simp)
  | cons c cs ih =>
    simp only [List.cons_append, containsB, Bool.or_eq_true] at h
    rcases h with h | h
    · exact ⟨[], c :: cs, rfl, by simp, h⟩
    · rcases ih h with ⟨x, s, hxs, hs, hp⟩
      exact ⟨c :: x, s, by simp [hxs], hs, hp⟩

theorem containsB_mem (p l : List Char) (h : containsB p l = true) :
    ∀ c ∈ p, c ∈ l := by
  induction l with
  | nil =>
    have := prefixB_nil p h
    subst this
    simp
  | cons c cs ih =>
    simp only [containsB, Bool.or_eq_true] at h
    rcases h with h | h
    · exact prefixB_mem _ _ h
    · exact fun x hx => List.mem_cons_of_mem _ (ih h x hx)

theorem mem_of_append_last {x s a : List Char} {k : Char}
    (h : x ++ s = a ++ [k]) (hs : s ≠ []) : k ∈ s := by
  have hr := congrArg List.reverse h
  simp only [List.reverse_append, List.reverse_cons, List.reverse_nil,
    List.nil_append, List.singleton_append] at hr
  cases hsr : s.reverse with
  | nil =>
    have : s = [] := by simpa using congrArg List.reverse hsr
    exact absurd this hs
  | cons c t =>
    rw [hsr] at hr
    simp only [List.cons_append, List.cons.injEq] at hr
    have : k ∈ s.reverse := by rw [hsr, hr.1]; exact List.mem_cons_self _ _
    exact List.mem_reverse.1 this

theorem dropWhile_append_eq (q : Char → Bool) (a b : List Char) :
    (a ++ b).dropWhile q =
      if a.dropWhile q = [] then b.dropWhile q else a.dropWhile q ++ b := by
  induction a with
  | nil => simp
  | cons c cs ih =>
    by_cases hc : q c = true
    · simpa [List.dropWhile_cons, hc] using ih
    · simp at hc
      simp [List.dropWhile_cons, hc]

theorem dropWhile_eq_self_of_nonws (q : Char → Bool) (l : List Char)
    (h : ∀ c ∈ l, q c = false) : l.dropWhile q = l := by
  cases l with
  | nil => rfl
  | cons c cs => simp [List.dropWhile_cons, h c (List.mem_cons_self _ _)]

theorem takeWhile_append_dropWhile_eq (q : Char → Bool) (l : List Char) :
    l.takeWhile q ++ l.dropWhile q = l := by
  induction l with
  | nil => rfl
  | cons c cs ih =>
    by_cases hc : q c = true
    · simp [List.takeWhile_cons, List.dropWhile_cons, hc, ih]
    · simp at hc
      simp [List.takeWhile_cons, List.dropWhile_cons, hc]

theorem rstrip_append_of_nonws (s t : List Char)
    (hs : ∀ c ∈ s, isPySpace c = false) : rstrip (s ++ t) = s ++ rstrip t := by
  unfold rstrip
  rw [List.reverse_append, dropWhile_append_eq]
  have hsrev : s.reverse.dropWhile isPySpace = s.reverse :=
    dropWhile_eq_self_of_nonws _ _ (fun c hc => hs c (List.mem_reverse.1 hc))
  by_cases ht : t.reverse.dropWhile isPySpace = []
  · simp [ht, hsrev]
  · simp [ht, List.reverse_append]

theorem rstrip_decomp (l : List Char) : ∃ w, l = rstrip l ++ w := by
  refine ⟨(l.reverse.takeWhile isPySpace).reverse, ?_⟩
  unfold rstrip
  rw [← List.reverse_append, takeWhile_append_dropWhile_eq, List.reverse_reverse]

theorem rstrip_nil : rstrip [] = [] := rfl

theorem pyLowerChar_cases (c : Char) :
    pyLowerChar c = c ∨ (c, pyLowerChar c) ∈ ucPairs := by
  unfold pyLowerChar
  split
  all_goals first
    | exact Or.inl rfl
    | exact Or.inr (by decide)

theorem nonws_of_pyLowerChar (c k : Char) (h : pyLowerChar c = k)
    (hk : isPySpace k = false) : isPySpace c = false := by
  rcases pyLowerChar_cases c with hc | hc
  · rw [hc] at h; rw [h]; exact hk
  · rw [h] at hc
    have hall : ∀ p ∈ ucPairs, isPySpace p.1 = false := by decide
    exact hall (c, k) hc

theorem nonws_of_pyLower (s p : List Char) (h : pyLower s = p)
    (hp : ∀ k ∈ p, isPySpace k = false) : ∀ c ∈ s, isPySpace c = false := by
  intro c hc
  have hm : pyLowerChar c ∈ p := by
    rw [← h]
    exact List.mem_map_of_mem _ hc
  exact nonws_of_pyLowerChar c _ rfl (hp _ hm)

theorem matchCI_spec (p rest rem : List Char) (h : matchCI p rest = some rem) :
    ∃ s, rest = s ++ rem ∧ pyLower s = p := by
  induction p generalizing rest with
  | nil =>
    refine ⟨[], ?_, rfl⟩
    simpa [matchCI] using h
  | cons c cs ih =>
    cases rest with
    | nil => simp [matchCI] at h
    | cons d ds =>
      simp only [matchCI] at h
      split at h
      · rcases ih ds h with ⟨s, hds, hlow⟩
        rename_i hd
        exact ⟨d :: s, by simp [hds], by unfold pyLower at hlow ⊢; simp [hd, hlow]⟩
      · exact absurd h (by simp)

theorem digitChar_mem (n : Nat) (h : n < 10) :
    Nat.digitChar n ∈ ("0123456789").data := by
  interval_cases n <;> decide

theorem toDigitsCore_mem (fuel : Nat) : ∀ (n : Nat) (ds : List Char),
    (∀ c ∈ ds, c ∈ ("0123456789").data) →
    ∀ c ∈ Nat.toDigitsCore 10 fuel n ds, c ∈ ("0123456789").data := by
  induction fuel with
  | zero =>
    intro n ds hds
    simpa [Nat.toDigitsCore] using hds
  | succ f ih =>
    intro n ds hds
    have hcons : ∀ c ∈ Nat.digitChar (n % 10) :: ds, c ∈ ("0123456789").data := by
      intro c hc
      rcases List.mem_cons.1 hc with hc | hc
      · subst hc
        exact digitChar_mem _ (Nat.mod_lt _ (by omega))
      · exact hds c hc
    simp only [Nat.toDigitsCore]
    split
    · exact hcons
    · exact ih _ _ hcons

theorem repr_digits (n : Nat) :
    ∀ c ∈ (Nat.repr n).data, c ∈ ("0123456789").data := by
  have h : (Nat.repr n).data = Nat.toDigitsCore 10 (n + 1) n [] := rfl
  rw [h]
  exact toDigitsCore_mem _ _ _ (by simp)

theorem lowered_of_matchCI (cs rem : List Char)
    (hm : matchCI (("select").data) (cs.dropWhile isPySpace) = some rem) :
    pyLower (pyStrip cs) = ("select").data ++ pyLower (rstrip rem) := by
  rcases matchCI_spec _ _ _ hm with ⟨s, hrest, hlow⟩
  have hnonws : ∀ c ∈ s, isPySpace c = false :=
    nonws_of_pyLower s _ hlow (by decide)
  unfold pyStrip lstrip
  rw [hrest, rstrip_append_of_nonws _ _ hnonws]
  unfold pyLower
  rw [List.map_append]
  rw [show List.map pyLowerChar s = ("select").data from hlow]

theorem containsB_head_block_false (p D R : List Char)
    (hp : p ≠ [])
    (hchar : ∀ c ∈ p, c ∉ (("0123456789()").data))
    (hsel : containsB p (("select top (").data) = false)
    (hD : ∀ c ∈ D, c ∈ (("0123456789").data))
    (hR : containsB p R = false) :
    containsB p (("select top (").data ++ D ++ [')'] ++ R) = false := by
  by_contra hcon
  rw [Bool.not_eq_false] at hcon
  rcases containsB_split p ((("select top (").data ++ D) ++ [')']) R hcon hR with
    ⟨x, s, hxs, hs, hpre⟩
  by_cases hlen : p.length ≤ s.length
  · have hps : prefixB p s = true := prefixB_shrink p s R hpre hlen
    have hcA : containsB p ((("select top (").data ++ D) ++ [')']) = true := by
      rw [hxs]
      exact containsB_append_right _ _ _ (containsB_of_prefixB _ _ hps)
    have hDb : containsB p (D ++ [')']) = false := by
      by_contra hD2
      rw [Bool.not_eq_false] at hD2
      obtain ⟨c0, hc0⟩ := List.exists_mem_of_ne_nil p hp
      have hmem := containsB_mem _ _ hD2 c0 hc0
      have hsub : ∀ c ∈ ("0123456789").data, c ∈ (("0123456789()").data) := by
        decide
      rcases List.mem_append.1 hmem with h | h
      · exact hchar c0 hc0 (hsub _ (hD c0 h))
      · have : c0 = ')' := by simpa using h
        subst this
        exact hchar _ hc0 (by decide)
    rw [List.append_assoc] at hcA
    rcases containsB_split p (("select top (").data) (D ++ [')']) hcA hDb with
      ⟨x', s', hxs', hs', hpre'⟩
    by_cases hlen' : p.length ≤ s'.length
    · have hps' : prefixB p s' = true := prefixB_shrink _ _ _ hpre' hlen'
      have hfound : containsB p (("select top (").data) = true := by
        rw [hxs']
        exact containsB_append_right _ _ _ (containsB_of_prefixB _ _ hps')
      rw [hfound] at hsel
      exact absurd hsel (by simp)
    · have hsp : prefixB s' p = true :=
        prefixB_swap _ _ _ hpre' (le_of_lt (not_le.1 hlen'))
      have h2 : x' ++ s' = ("select top ").data ++ ['('] := by
        rw [← hxs']; decide
      have hpar : '(' ∈ s' := mem_of_append_last h2 hs'
      exact hchar '(' (prefixB_mem _ _ hsp _ hpar) (by decide)
  · have hsp : prefixB s p = true :=
      prefixB_swap _ _ _ hpre (le_of_lt (not_le.1 hlen))
    have h2 : x ++ s = (("select top (").data ++ D) ++ [')'] := hxs.symm
    have hpar : ')' ∈ s := mem_of_append_last h2 hs
    exact hchar ')' (prefixB_mem _ _ hsp _ hpar) (by decide)

/-! Claim theorems for the query guard. -/

/-- C1: on both backends, the query tool fails with the unsafe-statement
error exactly when the trimmed lower-cased statement does not begin with
select or with (mssql) respectively select, with or explain (generic); a
statement beginning with one of the allowed keywords is never rejected by
the prefix check. -/
theorem c1_prefix_guard (sql : String) (limit : Nat) :
    ((∃ e, query_sql_mssql_guard sql limit = Except.error e) ↔
      ¬ (prefixB (("select").data) (lowered sql) = true ∨
         prefixB (("with").data) (lowered sql) = true)) ∧
    ((∃ e, query_sql_pg_guard sql = Except.error e) ↔
      ¬ (prefixB (("select").data) (lowered sql) = true ∨
         prefixB (("with").data) (lowered sql) = true ∨
         prefixB (("explain").data) (lowered sql) = true)) := by
  simp only [lowered]
  constructor
  · cases h1 : prefixB (("select").data) (pyLower (pyStrip sql.data)) <;>
    cases h2 : prefixB (("with").data) (pyLower (pyStrip sql.data)) <;>
    simp [query_sql_mssql_guard, guardCore, h1, h2]
  · cases h1 : prefixB (("select").data) (pyLower (pyStrip sql.data)) <;>
    cases h2 : prefixB (("with").data) (pyLower (pyStrip sql.data)) <;>
    cases h3 : prefixB (("explain").data) (pyLower (pyStrip sql.data)) <;>
    simp [query_sql_pg_guard, lowered, h1, h2, h3]

/-- C2 counterexample: a with-statement is accepted, contains no limiting
keyword and no order by, yet the guard returns it textually unchanged and
its output contains no top and no fetch clause in any letter case: the
re.sub pattern is anchored at a leading select, so no limiting clause is
injected. -/
theorem c2_counterexample :
    query_sql_mssql_guard "with t as (select 1 as x) select x from t" 500 =
      Except.ok "with t as (select 1 as x) select x from t" ∧
    containsB ((" top ").data)
      (lowered "with t as (select 1 as x) select x from t") = false ∧
    containsB ((" fetch next ").data)
      (lowered "with t as (select 1 as x) select x from t") = false ∧
    containsB ((" order by ").data)
      (lowered "with t as (select 1 as x) select x from t") = false ∧
    containsB (("top").data)
      (pyLower (("with t as (select 1 as x) select x from t").data)) = false ∧
    containsB (("fetch").data)
      (pyLower (("with t as (select 1 as x) select x from t").data)) = false :=
  ⟨rfl, rfl, rfl, rfl, rfl, rfl⟩

/-- C2 (amended): for every accepted statement whose text begins, after
leading whitespace, with the word select (case-insensitive, at a word
boundary) and whose trimmed lower-cased text contains no top, no fetch next
and no order by, the guard replaces the leading whitespace and select
keyword by SELECT TOP (limit). -/
theorem c2_top_injection (sql : String) (limit : Nat) (rem : List Char)
    (hm : matchCI (("select").data) (sql.data.dropWhile isPySpace) = some rem)
    (hb : wordBoundary rem = true)
    (htop : containsB ((" top ").data) (lowered sql) = false)
    (hfetch : containsB ((" fetch next ").data) (lowered sql) = false)
    (horder : containsB ((" order by ").data) (lowered sql) = false) :
    query_sql_mssql_guard sql limit =
      Except.ok (String.mk (selectTopHead limit ++ rem)) := by
  have hlow : pyLower (pyStrip sql.data) =
      ("select").data ++ pyLower (rstrip rem) := lowered_of_matchCI _ _ hm
  have hpre : prefixB (("select").data) (pyLower (pyStrip sql.data)) = true := by
    rw [hlow]
    exact prefixB_refl_append _ _
  simp only [lowered] at htop hfetch horder
  simp [query_sql_mssql_guard, guardCore, rewriteCore, reSubLeadingSelect,
    hpre, htop, hfetch, horder, hm, hb]

/-- C2 witness: the spec example select star from prices with limit 500. -/
theorem c2_top_injection_witness :
    query_sql_mssql_guard "select * from prices" 500 =
      Except.ok "SELECT TOP (500) * from prices" := by
  have h := c2_top_injection "select * from prices" 500 ((" * from prices").data)
    rfl rfl rfl rfl rfl
  rw [h]
  rfl

/-- C3: the statement select top 5 star from t order by x already contains
the limiting keyword top, yet the guard appends an offset-fetch clause
instead of returning it unchanged; the result combines TOP with
OFFSET-FETCH, which T-SQL rejects.  This records the divergence between the
code and its documented contract of appending a fetch clause only when the
caller did not limit rows. -/
theorem c3_top_statement_rewritten :
    containsB ((" top ").data) (lowered "select top 5 * from t order by x") = true ∧
    query_sql_mssql_guard "select top 5 * from t order by x" 500 =
      Except.ok
        "select top 5 * from t order by x OFFSET 0 ROWS FETCH NEXT 500 ROWS ONLY" :=
  ⟨rfl, rfl⟩

/-- C4: for every accepted statement whose trimmed lower-cased text contains
an order by clause but neither the keyword top nor a fetch next clause, the
guard appends exactly OFFSET 0 ROWS FETCH NEXT limit ROWS ONLY at the end of
the unchanged statement text. -/
theorem c4_order_by_append (sql : String) (limit : Nat)
    (hpre : prefixB (("select").data) (lowered sql) = true ∨
            prefixB (("with").data) (lowered sql) = true)
    (htop : containsB ((" top ").data) (lowered sql) = false)
    (hfetch : containsB ((" fetch next ").data) (lowered sql) = false)
    (horder : containsB ((" order by ").data) (lowered sql) = true) :
    query_sql_mssql_guard sql limit =
      Except.ok (sql ++ " OFFSET 0 ROWS FETCH NEXT " ++ Nat.repr limit ++
        " ROWS ONLY") := by
  simp only [lowered] at hpre htop hfetch horder
  have hb : (prefixB (("select").data) (pyLower (pyStrip sql.data)) ||
      prefixB (("with").data) (pyLower (pyStrip sql.data))) = true := by
    rcases hpre with h | h <;> simp [h]
  simp [query_sql_mssql_guard, guardCore, rewriteCore, hb, htop, hfetch, horder]
  have hdata : (sql ++ " OFFSET 0 ROWS FETCH NEXT " ++ Nat.repr limit ++
      " ROWS ONLY").data = sql.data ++ mssqlLimitSuffix limit := by
    simp [data_append, mssqlLimitSuffix, List.append_assoc]
  exact congrArg String.mk hdata.symm

/-! Supporting lemmas for idempotence of the guard. -/

theorem lstrip_ne_nil (cs p : List Char) (hp : p ≠ [])
    (h : prefixB p (pyLower (pyStrip cs)) = true) :
    cs.dropWhile isPySpace ≠ [] := by
  intro hnil
  have hempty : pyLower (pyStrip cs) = [] := by
    unfold pyStrip lstrip
    rw [hnil]
    rfl
  rw [hempty] at h
  cases p with
  | nil => exact hp rfl
  | cons c cs' => simp [prefixB] at h

theorem rstrip_append_last (a : List Char) (k : Char) (hk : isPySpace k = false) :
    rstrip (a ++ [k]) = a ++ [k] := by
  unfold rstrip
  rw [List.reverse_append]
  simp [List.dropWhile_cons, hk]

theorem rstrip_append_of_ne (a b : List Char)
    (hb : b.reverse.dropWhile isPySpace ≠ []) :
    rstrip (a ++ b) = a ++ rstrip b := by
  unfold rstrip
  rw [List.reverse_append, dropWhile_append_eq]
  simp [hb, List.reverse_append]

theorem mssqlLimitSuffix_eq (limit : Nat) :
    mssqlLimitSuffix limit =
      ((" OFFSET 0 ROWS FETCH NEXT ").data ++ (Nat.repr limit).data ++
        (" ROWS ONL").data) ++ ['Y'] := by
  unfold mssqlLimitSuffix
  rw [show (" ROWS ONLY").data = (" ROWS ONL").data ++ ['Y'] from by decide]
  simp [List.append_assoc]

theorem rstrip_mssqlLimitSuffix (limit : Nat) :
    rstrip (mssqlLimitSuffix limit) = mssqlLimitSuffix limit := by
  rw [mssqlLimitSuffix_eq]
  exact rstrip_append_last _ _ (by decide)

theorem revdrop_mssqlLimitSuffix_ne (limit : Nat) :
    (mssqlLimitSuffix limit).reverse.dropWhile isPySpace ≠ [] := by
  rw [mssqlLimitSuffix_eq, List.reverse_append]
  simp +decide [List.dropWhile_cons]

theorem rstrip_append_keep (w b : List Char) (k : Char)
    (hk : isPySpace k = false) :
    rstrip ((w ++ [k]) ++ b) = (w ++ [k]) ++ rstrip b := by
  unfold rstrip
  rw [List.reverse_append, dropWhile_append_eq]
  by_cases hb : b.reverse.dropWhile isPySpace = []
  · rw [if_pos hb, hb, List.reverse_append]
    simp [List.dropWhile_cons, hk]
  · rw [if_neg hb]
    simp [List.reverse_append]

theorem pyLower_digits (D : List Char)
    (hD : ∀ c ∈ D, c ∈ ("0123456789").data) :
    ∀ c ∈ pyLower D, c ∈ ("0123456789").data := by
  intro c hc
  rcases List.mem_map.1 hc with ⟨d, hd, hdc⟩
  have hdig := hD d hd
  have hfix : ∀ x ∈ ("0123456789").data, pyLowerChar x = x := by decide
  rw [← hdc, hfix d hdig]
  exact hdig

theorem pyLower_selectTopHead (limit : Nat) :
    pyLower (selectTopHead limit) =
      ("select top (").data ++ pyLower ((Nat.repr limit).data) ++ [')'] := by
  unfold selectTopHead pyLower
  rw [List.map_append, List.map_append]
  rw [show List.map pyLowerChar (("SELECT TOP (").data) =
    ("select top (").data from by decide]
  rw [show List.map pyLowerChar [')'] = [')'] from by decide]

theorem pyLower_mssqlLimitSuffix (limit : Nat) :
    pyLower (mssqlLimitSuffix limit) =
      (" offset 0 rows fetch next ").data ++ pyLower ((Nat.repr limit).data) ++
        (" rows only").data := by
  unfold mssqlLimitSuffix pyLower
  rw [List.map_append, List.map_append]
  rw [show List.map pyLowerChar ((" OFFSET 0 ROWS FETCH NEXT ").data) =
    (" offset 0 rows fetch next ").data from by decide]
  rw [show List.map pyLowerChar ((" ROWS ONLY").data) =
    (" rows only").data from by decide]

theorem selectTopHead_cons (limit : Nat) :
    selectTopHead limit ++ rem =
      'S' :: (("ELECT TOP (").data ++ (Nat.repr limit).data ++ [')'] ++ rem) := by
  unfold selectTopHead
  rw [show ("SELECT TOP (").data = 'S' :: ("ELECT TOP (").data from by decide]
  simp [List.append_assoc]

theorem guardCore_fix_inject (limit : Nat) (cs rem : List Char)
    (hm : matchCI (("select").data) (cs.dropWhile isPySpace) = some rem)
    (horder : containsB ((" order by ").data) (pyLower (pyStrip cs)) = false) :
    guardCore limit (selectTopHead limit ++ rem) =
      Except.ok (selectTopHead limit ++ rem) := by
  have hlow := lowered_of_matchCI cs rem hm
  have hRord : containsB ((" order by ").data) (pyLower (rstrip rem)) = false := by
    by_contra hcon
    rw [Bool.not_eq_false] at hcon
    have h2 := containsB_append_right _ (("select").data) _ hcon
    rw [← hlow] at h2
    rw [h2] at horder
    simp at horder
  have hstrip : pyStrip (selectTopHead limit ++ rem) =
      selectTopHead limit ++ rstrip rem := by
    unfold pyStrip lstrip
    rw [selectTopHead_cons, List.dropWhile_cons, if_neg (by decide)]
    rw [← selectTopHead_cons]
    unfold selectTopHead
    rw [rstrip_append_keep (("SELECT TOP (").data ++ (Nat.repr limit).data)
      rem ')' (by decide)]
  have hlow' : pyLower (pyStrip (selectTopHead limit ++ rem)) =
      ("select top (").data ++ pyLower ((Nat.repr limit).data) ++ [')'] ++
        pyLower (rstrip rem) := by
    rw [hstrip]
    unfold pyLower
    rw [List.map_append]
    rw [show List.map pyLowerChar (selectTopHead limit) =
      ("select top (").data ++ List.map pyLowerChar ((Nat.repr limit).data) ++
        [')'] from pyLower_selectTopHead limit]
  have hpre' : prefixB (("select").data)
      (("select top (").data ++ pyLower ((Nat.repr limit).data) ++ [')'] ++
        pyLower (rstrip rem)) = true := by
    have hbase : prefixB (("select").data) (("select top (").data) = true := by
      decide
    have h1 := prefixB_append_right _ _
      (pyLower ((Nat.repr limit).data) ++ ([')'] ++ pyLower (rstrip rem))) hbase
    simpa [List.append_assoc] using h1
  have htop' : containsB ((" top ").data)
      (("select top (").data ++ pyLower ((Nat.repr limit).data) ++ [')'] ++
        pyLower (rstrip rem)) = true := by
    have hbase : containsB ((" top ").data) (("select top (").data) = true := by
      decide
    have h1 := containsB_append_left _ _
      (pyLower ((Nat.repr limit).data) ++ ([')'] ++ pyLower (rstrip rem))) hbase
    simpa [List.append_assoc] using h1
  have hord' : containsB ((" order by ").data)
      (("select top (").data ++ pyLower ((Nat.repr limit).data) ++ [')'] ++
        pyLower (rstrip rem)) = false := by
    apply containsB_head_block_false
    · decide
    · decide
    · decide
    · exact pyLower_digits _ (repr_digits limit)
    · exact hRord
  simp only [guardCore]
  rw [hlow', hpre']
  simp only [Bool.true_or, Bool.not_true, Bool.false_eq_true, if_false,
    ite_false]
  unfold rewriteCore
  rw [htop', hord']
  simp

theorem guardCore_fix_append (limit : Nat) (cs : List Char)
    (hpre : (prefixB (("select").data) (pyLower (pyStrip cs)) ||
             prefixB (("with").data) (pyLower (pyStrip cs))) = true) :
    guardCore limit (cs ++ mssqlLimitSuffix limit) =
      Except.ok (cs ++ mssqlLimitSuffix limit) := by
  have hdp : cs.dropWhile isPySpace ≠ [] := by
    have hp2 := hpre
    rw [Bool.or_eq_true] at hp2
    rcases hp2 with h | h
    · exact lstrip_ne_nil cs _ (by decide) h
    · exact lstrip_ne_nil cs _ (by decide) h
  have hstrip : pyStrip (cs ++ mssqlLimitSuffix limit) =
      cs.dropWhile isPySpace ++ mssqlLimitSuffix limit := by
    unfold pyStrip lstrip
    rw [dropWhile_append_eq, if_neg hdp]
    rw [rstrip_append_of_ne _ _ (revdrop_mssqlLimitSuffix_ne limit)]
    rw [rstrip_mssqlLimitSuffix]
  obtain ⟨w, hw⟩ := rstrip_decomp (cs.dropWhile isPySpace)
  have hlow' : pyLower (pyStrip (cs ++ mssqlLimitSuffix limit)) =
      pyLower (pyStrip cs) ++
        (pyLower w ++ pyLower (mssqlLimitSuffix limit)) := by
    rw [hstrip]
    rw [show cs.dropWhile isPySpace = pyStrip cs ++ w from hw]
    unfold pyLower
    simp [List.map_append, List.append_assoc]
  have hfetch' : containsB ((" fetch next ").data)
      (pyLower (pyStrip cs) ++
        (pyLower w ++ pyLower (mssqlLimitSuffix limit))) = true := by
    apply containsB_append_right
    apply containsB_append_right
    rw [pyLower_mssqlLimitSuffix]
    have hbase : containsB ((" fetch next ").data)
        ((" offset 0 rows fetch next ").data) = true := by decide
    have h1 := containsB_append_left _ _
      (pyLower ((Nat.repr limit).data) ++ (" rows only").data) hbase
    simpa [List.append_assoc] using h1
  have hpre' : (prefixB (("select").data)
      (pyLower (pyStrip cs) ++
        (pyLower w ++ pyLower (mssqlLimitSuffix limit))) ||
      prefixB (("with").data)
      (pyLower (pyStrip cs) ++
        (pyLower w ++ pyLower (mssqlLimitSuffix limit)))) = true := by
    have hp2 := hpre
    rw [Bool.or_eq_true] at hp2
    rcases hp2 with h | h
    · simp [prefixB_append_right _ _ _ h]
    · simp [prefixB_append_right _ _ _ h]
  simp only [guardCore]
  rw [hlow', hpre']
  simp only [Bool.not_true, Bool.false_eq_true, if_false, ite_false]
  unfold rewriteCore
  rw [hfetch']
  simp

theorem guardCore_idem (limit : Nat) (cs os : List Char)
    (h : guardCore limit cs = Except.ok os) :
    guardCore limit os = Except.ok os := by
  simp only [guardCore] at h
  cases hpre : (prefixB (("select").data) (pyLower (pyStrip cs)) ||
      prefixB (("with").data) (pyLower (pyStrip cs))) with
  | false =>
    rw [hpre] at h
    simp at h
  | true =>
    rw [hpre] at h
    simp only [Bool.not_true, Bool.false_eq_true, if_false, ite_false] at h
    rw [Except.ok.injEq] at h
    unfold rewriteCore at h
    cases hc1 : (!containsB ((" top ").data) (pyLower (pyStrip cs)) &&
        !containsB ((" fetch next ").data) (pyLower (pyStrip cs)) &&
        !containsB ((" order by ").data) (pyLower (pyStrip cs))) with
    | true =>
      rw [hc1] at h
      simp only [if_true, ite_true] at h
      have horder : containsB ((" order by ").data) (pyLower (pyStrip cs)) = false := by
        simp only [Bool.and_eq_true, Bool.not_eq_true'] at hc1
        exact hc1.2
      unfold reSubLeadingSelect at h
      cases hm : matchCI (("select").data) (cs.dropWhile isPySpace) with
      | none =>
        simp only [hm] at h
        subst h
        simp [guardCore, rewriteCore, reSubLeadingSelect, hpre, hc1, hm]
      | some rem =>
        simp only [hm] at h
        cases hwb : wordBoundary rem with
        | false =>
          simp only [hwb, Bool.false_eq_true, if_false, ite_false] at h
          subst h
          simp [guardCore, rewriteCore, reSubLeadingSelect, hpre, hc1, hm, hwb]
        | true =>
          simp only [hwb, if_true, ite_true] at h
          rw [← h]
          exact guardCore_fix_inject limit cs rem hm horder
    | false =>
      rw [hc1] at h
      simp only [Bool.false_eq_true, if_false, ite_false] at h
      cases hc2 : (!containsB ((" fetch next ").data) (pyLower (pyStrip cs)) &&
          containsB ((" order by ").data) (pyLower (pyStrip cs))) with
      | true =>
        rw [hc2] at h
        simp only [if_true, ite_true] at h
        rw [← h]
        exact guardCore_fix_append limit cs hpre
      | false =>
        rw [hc2] at h
        simp only [Bool.false_eq_true, if_false, ite_false] at h
        subst h
        simp [guardCore, rewriteCore, hpre, hc1, hc2]

/-- C5: the guard rewrite is idempotent: whenever the guard accepts a
statement and returns a rewritten statement, running the guard again on
the output returns the output unchanged. -/
theorem c5_guard_idempotent (sql out : String) (limit : Nat)
    (h : query_sql_mssql_guard sql limit = Except.ok out) :
    query_sql_mssql_guard out limit = Except.ok out := by
  unfold query_sql_mssql_guard at h ⊢
  cases hg : guardCore limit sql.data with
  | error e => rw [hg] at h; simp at h
  | ok os =>
    rw [hg] at h
    simp only [Except.ok.injEq] at h
    subst h
    have h2 : guardCore limit (String.mk os).data = Except.ok os :=
      guardCore_idem limit sql.data os hg
    rw [h2]

/-- C5 witness: the first rewrite of select star from prices is a fixed
point of the guard. -/
theorem c5_guard_idempotent_witness :
    query_sql_mssql_guard "SELECT TOP (500) * from prices" 500 =
      Except.ok "SELECT TOP (500) * from prices" :=
  c5_guard_idempotent "select * from prices" "SELECT TOP (500) * from prices"
    500 (by rfl)

/-- C4 witness: the spec example with an order by and limit 500. -/
theorem c4_order_by_append_witness :
    query_sql_mssql_guard "select * from prices order by dt desc" 500 =
      Except.ok
        "select * from prices order by dt desc OFFSET 0 ROWS FETCH NEXT 500 ROWS ONLY" := by
  have h := c4_order_by_append "select * from prices order by dt desc" 500
    (Or.inl rfl) rfl rfl rfl
  rw [h]
  rfl

/-! Order lemmas for the ORDER BY LEN(alias), alias key. -/

theorem lexLt_irrefl (l : List Char) : lexLt l l = false := by
  induction l with
  | nil => rfl
  | cons c cs ih => simp [lexLt, ih]

theorem lexLt_trans {a b c : List Char} (h1 : lexLt a b = true)
    (h2 : lexLt b c = true) : lexLt a c = true := by
  induction a generalizing b c with
  | nil =>
    cases b with
    | nil => simp [lexLt] at h1
    | cons y ys =>
      cases c with
      | nil => simp [lexLt] at h2
      | cons z zs => rfl
  | cons x xs ih =>
    cases b with
    | nil => simp [lexLt] at h1
    | cons y ys =>
      cases c with
      | nil => simp [lexLt] at h2
      | cons z zs =>
        simp only [lexLt, Bool.or_eq_true, Bool.and_eq_true,
          decide_eq_true_eq, beq_iff_eq] at h1 h2 ⊢
        rcases h1 with h1 | ⟨he1, h1⟩
        · rcases h2 with h2 | ⟨he2, h2⟩
          · exact Or.inl (lt_trans h1 h2)
          · subst he2; exact Or.inl h1
        · subst he1
          rcases h2 with h2 | ⟨he2, h2⟩
          · exact Or.inl h2
          · subst he2; exact Or.inr ⟨rfl, ih h1 h2⟩

theorem lexLt_connex {a b : List Char} (h1 : lexLt a b = false)
    (h2 : lexLt b a = false) : a = b := by
  induction a generalizing b with
  | nil =>
    cases b with
    | nil => rfl
    | cons y ys => simp [lexLt] at h1
  | cons x xs ih =>
    cases b with
    | nil => simp [lexLt] at h2
    | cons y ys =>
      simp only [lexLt, Bool.or_eq_false_iff, Bool.and_eq_false_iff,
        decide_eq_false_iff_not, beq_eq_false_iff_ne, ne_eq] at h1 h2
      have hxe : x = y := le_antisymm (not_lt.1 h2.1) (not_lt.1 h1.1)
      subst hxe
      have hxs : lexLt xs ys = false := by
        rcases h1.2 with h | h
        · exact absurd rfl h
        · exact h
      have hys : lexLt ys xs = false := by
        rcases h2.2 with h | h
        · exact absurd rfl h
        · exact h
      rw [ih hxs hys]

theorem aliasKeyLt_irrefl (a : String) : aliasKeyLt a a = false := by
  simp [aliasKeyLt, lexLt_irrefl]

theorem aliasKeyLt_trans {a b c : String} (h1 : aliasKeyLt a b = true)
    (h2 : aliasKeyLt b c = true) : aliasKeyLt a c = true := by
  simp only [aliasKeyLt, Bool.or_eq_true, Bool.and_eq_true,
    decide_eq_true_eq, beq_iff_eq] at h1 h2 ⊢
  rcases h1 with h1 | ⟨he1, h1⟩
  · rcases h2 with h2 | ⟨he2, h2⟩
    · exact Or.inl (lt_trans h1 h2)
    · exact Or.inl (he2 ▸ h1)
  · rcases h2 with h2 | ⟨he2, h2⟩
    · exact Or.inl (he1 ▸ h2)
    · exact Or.inr ⟨he1.trans he2, lexLt_trans h1 h2⟩

theorem aliasKeyLt_le_lt_trans {u t r : String}
    (h1 : aliasKeyLt u t = false) (h2 : aliasKeyLt u r = true) :
    aliasKeyLt t r = true := by
  simp only [aliasKeyLt, Bool.or_eq_true, Bool.or_eq_false_iff,
    Bool.and_eq_true, Bool.and_eq_false_iff, decide_eq_true_eq,
    decide_eq_false_iff_not, beq_iff_eq, beq_eq_false_iff_ne, ne_eq] at h1 h2 ⊢
  obtain ⟨h1a, h1b⟩ := h1
  have hte : t.length ≤ u.length := not_lt.1 h1a
  rcases h2 with h2 | ⟨h2e, h2l⟩
  · exact Or.inl (lt_of_le_of_lt hte h2)
  · by_cases htu : t.length = u.length
    · rcases h1b with hne | hlex
      · exact absurd htu.symm hne
      · have htd : lexLt t.data r.data = true := by
          by_cases hlt : lexLt t.data u.data = true
          · exact lexLt_trans hlt h2l
          · have heq : t.data = u.data :=
              lexLt_connex (Bool.not_eq_true _ ▸ hlt) hlex
            rw [heq]
            exact h2l
        exact Or.inr ⟨htu.trans h2e, htd⟩
    · exact Or.inl (h2e ▸ lt_of_le_of_ne hte htu)

theorem foldl_min_spec (l : List IndRow) : ∀ t0 : IndRow,
    (List.foldl
        (fun best u => if aliasKeyLt u.aliasVal best.aliasVal then u else best)
        t0 l = t0 ∨
     List.foldl
        (fun best u => if aliasKeyLt u.aliasVal best.aliasVal then u else best)
        t0 l ∈ l) ∧
    ∀ u ∈ t0 :: l,
      aliasKeyLt u.aliasVal
        (List.foldl
          (fun best u => if aliasKeyLt u.aliasVal best.aliasVal then u else best)
          t0 l).aliasVal = false := by
  induction l with
  | nil =>
    intro t0
    refine ⟨Or.inl rfl, ?_⟩
    intro u hu
    have : u = t0 := by simpa using hu
    subst this
    exact aliasKeyLt_irrefl _
  | cons v l ih =>
    intro t0
    simp only [List.foldl_cons]
    by_cases hv : aliasKeyLt v.aliasVal t0.aliasVal = true
    · rw [if_pos hv]
      have hres := ih v
      constructor
      · rcases hres.1 with h | h
        · rw [h]
          exact Or.inr (List.mem_cons_self _ _)
        · exact Or.inr (List.mem_cons_of_mem _ h)
      · intro u hu
        rcases List.mem_cons.1 hu with hu | hu
        · subst hu
          by_contra hc
          rw [Bool.not_eq_false] at hc
          have hvres := aliasKeyLt_trans hv hc
          have hb := hres.2 v (List.mem_cons_self _ _)
          rw [hvres] at hb
          simp at hb
        · exact hres.2 u hu
    · rw [if_neg hv]
      have hres := ih t0
      have hvf : aliasKeyLt v.aliasVal t0.aliasVal = false :=
        Bool.not_eq_true _ ▸ hv
      constructor
      · rcases hres.1 with h | h
        · exact Or.inl h
        · exact Or.inr (List.mem_cons_of_mem _ h)
      · intro u hu
        rcases List.mem_cons.1 hu with hu | hu
        · subst hu
          exact hres.2 u (List.mem_cons_self _ _)
        · rcases List.mem_cons.1 hu with hu | hu
          · subst hu
            by_contra hc
            rw [Bool.not_eq_false] at hc
            have htrans := aliasKeyLt_le_lt_trans hvf hc
            have hb := hres.2 t0 (List.mem_cons_self _ _)
            rw [htrans] at hb
            simp at hb
          · exact hres.2 u (List.mem_cons_of_mem _ hu)

theorem pickFirstMin_spec (l : List IndRow) (t : IndRow)
    (h : pickFirstMin l = some t) :
    t ∈ l ∧ ∀ u ∈ l, aliasKeyLt u.aliasVal t.aliasVal = false := by
  cases l with
  | nil => simp [pickFirstMin] at h
  | cons v vs =>
    simp only [pickFirstMin, Option.some.injEq] at h
    have hspec := foldl_min_spec vs v
    constructor
    · rcases hspec.1 with h1 | h1
      · rw [← h, h1]
        exact List.mem_cons_self _ _
      · rw [← h]
        exact List.mem_cons_of_mem _ h1
    · intro u hu
      rw [← h]
      exact hspec.2 u hu

/-! Claim theorems for the entity resolvers. -/

/-- C6: the resolver follows its priority chain in order.  An exact
listCode match is returned tagged listCode regardless of any alias matches;
the exact space-insensitive alias stage runs only when the listCode stage
found nothing; the substring stage runs only when both earlier stages found
nothing. -/
theorem c6_priority_chain (db : List SecuRec) (keyword : String)
    (r : SecuRec) (t : AliasRow) :
    (db.find? (fun u => u.listCode == String.mk (pyStrip keyword.data)) =
        some r →
      resolve_stock_id_mssql db keyword =
        Resolution.found r.id "listCode" r.listCode) ∧
    (db.find? (fun u => u.listCode == String.mk (pyStrip keyword.data)) =
        none →
      (aliasRows db).find?
          (fun u => aliasNsEq (nosp (pyStrip keyword.data)) u.aliasVal) =
        some t →
      resolve_stock_id_mssql db keyword =
        Resolution.found t.id t.colname (stripOptVal t.aliasVal)) ∧
    (db.find? (fun u => u.listCode == String.mk (pyStrip keyword.data)) =
        none →
      (aliasRows db).find?
          (fun u => aliasNsEq (nosp (pyStrip keyword.data)) u.aliasVal) =
        none →
      (aliasRows db).find?
          (fun u => aliasNsContains (nosp (pyStrip keyword.data)) u.aliasVal) =
        some t →
      resolve_stock_id_mssql db keyword =
        Resolution.found t.id t.colname (stripOptVal t.aliasVal)) := by
  refine ⟨?_, ?_, ?_⟩
  · intro h1
    simp [resolve_stock_id_mssql, h1]
  · intro h1 h2
    simp [resolve_stock_id_mssql, h1, h2]
  · intro h1 h2 h3
    simp [resolve_stock_id_mssql, h1, h2, h3]

/-- C6 witness: keyword 2330 resolves to the record with listCode 2330 and
is tagged listCode, even though an earlier record in scan order has an
alias containing 2330 as a substring. -/
theorem c6_priority_chain_witness :
    resolve_stock_id_mssql
      [SecuRec.mk 7 "1111" (some "X2330Y") none none none none,
       SecuRec.mk 1 "2330" (some "台積電") none none none none] "2330" =
      Resolution.found 1 "listCode" "2330" ∧
    aliasNsContains (nosp (pyStrip (("2330").data))) (some "X2330Y") = true :=
  ⟨(c6_priority_chain
      [SecuRec.mk 7 "1111" (some "X2330Y") none none none none,
       SecuRec.mk 1 "2330" (some "台積電") none none none none] "2330"
      (SecuRec.mk 1 "2330" (some "台積電") none none none none)
      (AliasRow.mk 0 "" none)).1 (by rfl), by rfl⟩

/-- C7 counterexample: in resolve_stock_id_mssql the substring stage issues
TOP (1) with no ORDER BY, so the first candidate in scan order wins: with a
longer matching alias stored on an earlier record, the resolver returns the
longer alias even though a later record has a strictly shorter matching
alias. -/
theorem c7_counterexample :
    resolve_stock_id_mssql
      [SecuRec.mk 5 "1111" (some "AAA233BBB") none none none none,
       SecuRec.mk 6 "2222" (some "Z233") none none none none] "233" =
      Resolution.found 5 "name" "AAA233BBB" ∧
    aliasNsContains (nosp (pyStrip (("233").data))) (some "Z233") = true ∧
    ("Z233").length < ("AAA233BBB").length :=
  ⟨rfl, rfl, by decide⟩

/-- C7 (amended): in resolve_stock_industry, when the exact stage finds
nothing and substring candidates exist, the returned row is a substring
candidate whose alias key (length, then lexicographic order) is minimal
among all candidates: shorter aliases win, with the lexicographically
earlier alias winning among equal lengths. -/
theorem c7_industry_shortest (db : List IndRec) (keyword : String)
    (hexact : (indRows db).find?
        (fun u => u.aliasVal == String.mk (pyStrip keyword.data)) = none)
    (hne : (indRows db).filter
        (fun u => containsB (String.mk (pyStrip keyword.data)).data
          u.aliasVal.data) ≠ []) :
    ∃ t ∈ (indRows db).filter
        (fun u => containsB (String.mk (pyStrip keyword.data)).data
          u.aliasVal.data),
      resolve_stock_industry db keyword =
        Resolution.found t.id t.colname (String.mk (pyStrip t.aliasVal.data)) ∧
      ∀ u ∈ (indRows db).filter
          (fun u => containsB (String.mk (pyStrip keyword.data)).data
            u.aliasVal.data),
        aliasKeyLt u.aliasVal t.aliasVal = false := by
  cases hpick : pickFirstMin ((indRows db).filter
      (fun u => containsB (String.mk (pyStrip keyword.data)).data
        u.aliasVal.data)) with
  | none =>
    cases hfil : (indRows db).filter
        (fun u => containsB (String.mk (pyStrip keyword.data)).data
          u.aliasVal.data) with
    | nil => exact absurd hfil hne
    | cons a as =>
      rw [hfil] at hpick
      simp [pickFirstMin] at hpick
  | some t =>
    have hspec := pickFirstMin_spec _ t hpick
    refine ⟨t, hspec.1, ?_, hspec.2⟩
    simp [resolve_stock_industry, hexact, hpick]

/-- C7 witness for the amended theorem: keyword em matches both the long
alias Long Cement Name (scanned first) and the short alias Cem; the
industry resolver returns the shortest candidate. -/
theorem c7_industry_shortest_witness :
    ∃ t ∈ (indRows
        [IndRec.mk 3 (some "Long Cement Name") none none,
         IndRec.mk 4 (some "Cem") none none]).filter
        (fun u => containsB (String.mk (pyStrip (("em").data))).data
          u.aliasVal.data),
      resolve_stock_industry
          [IndRec.mk 3 (some "Long Cement Name") none none,
           IndRec.mk 4 (some "Cem") none none] "em" =
        Resolution.found t.id t.colname (String.mk (pyStrip t.aliasVal.data)) ∧
      ∀ u ∈ (indRows
          [IndRec.mk 3 (some "Long Cement Name") none none,
           IndRec.mk 4 (some "Cem") none none]).filter
          (fun u => containsB (String.mk (pyStrip (("em").data))).data
            u.aliasVal.data),
        aliasKeyLt u.aliasVal t.aliasVal = false :=
  c7_industry_shortest
    [IndRec.mk 3 (some "Long Cement Name") none none,
     IndRec.mk 4 (some "Cem") none none] "em" (by rfl) (by decide)

/-- C8: when no stage of the chain matches, both resolvers return the
empty dictionary as ordinary data; the embedded resolvers are total
functions, so a no-match outcome never raises. -/
theorem c8_no_match_empty (db : List SecuRec) (pdb : List StockAlias)
    (sim : String → String → Nat) (keyword nm : String)
    (h1 : db.find? (fun u => u.listCode == String.mk (pyStrip keyword.data)) =
      none)
    (h2 : (aliasRows db).find?
      (fun u => aliasNsEq (nosp (pyStrip keyword.data)) u.aliasVal) = none)
    (h3 : (aliasRows db).find?
      (fun u => aliasNsContains (nosp (pyStrip keyword.data)) u.aliasVal) =
      none)
    (h4 : pdb.filter (fun u => u.stock_id == nm || ilikeEq u.aliasVal nm) =
      []) :
    resolve_stock_id_mssql db keyword = Resolution.empty ∧
    resolve_stock_id pdb sim nm = PgResolution.empty := by
  constructor
  · simp [resolve_stock_id_mssql, h1, h2, h3]
  · simp [resolve_stock_id, h4, pickFirstMax]

/-- C8 witness: an unmatched keyword yields the empty dictionary on both
backends. -/
theorem c8_no_match_empty_witness :
    resolve_stock_id_mssql
      [SecuRec.mk 1 "2330" (some "台積電") none none none none] "zzz" =
      Resolution.empty ∧
    resolve_stock_id [StockAlias.mk "2330" "台積電"] (fun _ _ => 0) "zzz" =
      PgResolution.empty :=
  c8_no_match_empty
    [SecuRec.mk 1 "2330" (some "台積電") none none none none]
    [StockAlias.mk "2330" "台積電"] (fun _ _ => 0) "zzz" "zzz"
    (by rfl) (by rfl) (by rfl) (by rfl)

/-! Claim theorems for the conversation orchestrator. -/

/-- C9: a turn in which the model issues some number of sequential tool
calls before a text answer appends, after the starting history, exactly the
strictly interleaved call and result blocks (each call immediately followed
by one result with the same tool name) and then the single text answer;
the appended region holds exactly as many call messages as result
messages, one pair per dispatched call. -/
theorem c9_tool_call_interleaving (llm : List Msg → ModelResponse)
    (runTool : String → String → String) (fuel : Nat) (msgs out : List Msg)
    (h : chatTurn llm runTool fuel msgs = some out) :
    ∃ (ps : List (String × String × String)) (t : String),
      out = msgs ++ (ps.map callBlock).flatten ++ [Msg.assistantText t] ∧
      (ps.map callBlock).flatten.countP isCallMsg = ps.length ∧
      (ps.map callBlock).flatten.countP isResultMsg = ps.length := by
  induction fuel generalizing msgs with
  | zero => simp [chatTurn] at h
  | succ f ih =>
    unfold chatTurn at h
    cases hr : llm msgs with
    | text t =>
      rw [hr] at h
      simp only [Option.some.injEq] at h
      exact ⟨[], t, by simp [← h], by simp, by simp⟩
    | call name args =>
      rw [hr] at h
      rcases ih _ h with ⟨ps, t, hout, hc1, hc2⟩
      refine ⟨(name, args, runTool name args) :: ps, t, ?_, ?_, ?_⟩
      · rw [hout]
        simp [callBlock, List.append_assoc]
      · simp [callBlock, List.countP_append, List.countP_cons, isCallMsg,
          isResultMsg, hc1]
      · simp [callBlock, List.countP_append, List.countP_cons, isCallMsg,
          isResultMsg, hc2]

/-- C9 witness: two sequential tool calls followed by a text answer give
the strictly interleaved history. -/
theorem c9_tool_call_interleaving_witness :
    ∃ (ps : List (String × String × String)) (t : String),
      [Msg.user "hi", Msg.assistantCall "add" "x", Msg.toolResult "add" "ok",
       Msg.assistantCall "add" "x", Msg.toolResult "add" "ok",
       Msg.assistantText "done"] =
        [Msg.user "hi"] ++ (ps.map callBlock).flatten ++ [Msg.assistantText t] ∧
      (ps.map callBlock).flatten.countP isCallMsg = ps.length ∧
      (ps.map callBlock).flatten.countP isResultMsg = ps.length :=
  c9_tool_call_interleaving demoLlm demoTool 9 [Msg.user "hi"]
    [Msg.user "hi", Msg.assistantCall "add" "x", Msg.toolResult "add" "ok",
     Msg.assistantCall "add" "x", Msg.toolResult "add" "ok",
     Msg.assistantText "done"] (by rfl)

/-- C10 counterexample: when the tool dispatch fails, the turn aborts with
the propagated error and the conversation history does not contain the
assistant tool-call message of the failed dispatch: in the source the
run_tool await precedes both history appends, so nothing was appended. -/
theorem c10_counterexample :
    chatTurnE (fun _ => ModelResponse.call "query_sql_mssql" "sql")
      (fun _ _ => Except.error "BackendUnavailable") 5 [Msg.user "q"] =
      TurnOutcome.failed "BackendUnavailable" [Msg.user "q"] ∧
    (Msg.assistantCall "query_sql_mssql" "sql") ∉ [Msg.user "q"] :=
  ⟨rfl, by decide⟩

/-- C10 (amended): a dispatch failure aborts the turn with the error and a
history that consists exactly of the pre-turn messages plus the completed
call and result pairs of the earlier successful dispatches; the failing
request is recomputable from the model on that history but its tool-call
message was never appended. -/
theorem c10_failure_history (llm : List Msg → ModelResponse)
    (runTool : String → String → Except String String) (fuel : Nat)
    (msgs hist : List Msg) (e : String)
    (h : chatTurnE llm runTool fuel msgs = TurnOutcome.failed e hist) :
    ∃ ps : List (String × String × String),
      hist = msgs ++ (ps.map callBlock).flatten ∧
      ∃ name args, llm hist = ModelResponse.call name args ∧
        runTool name args = Except.error e := by
  induction fuel generalizing msgs with
  | zero => simp [chatTurnE] at h
  | succ f ih =>
    unfold chatTurnE at h
    cases hr : llm msgs with
    | text t =>
      simp only [hr] at h
      exact absurd h (by simp)
    | call name args =>
      simp only [hr] at h
      cases hrt : runTool name args with
      | error e2 =>
        simp only [hrt] at h
        simp only [TurnOutcome.failed.injEq] at h
        obtain ⟨he, hh⟩ := h
        subst he
        subst hh
        exact ⟨[], by simp, name, args, hr, hrt⟩
      | ok r =>
        simp only [hrt] at h
        rcases ih _ h with ⟨ps, hout, name2, args2, hcall, herr⟩
        refine ⟨(name, args, r) :: ps, ?_, name2, args2, hcall, herr⟩
        rw [hout]
        simp [callBlock, List.append_assoc]

/-- C10 witness for the amended theorem: a failing dispatch on the first
tool call of a turn leaves the history exactly as it was, with the failing
request recomputable from the model. -/
theorem c10_failure_history_witness :
    ∃ ps : List (String × String × String),
      [Msg.user "q1"] = [Msg.user "q1"] ++ (ps.map callBlock).flatten ∧
      ∃ name args, demoLlmFail [Msg.user "q1"] = ModelResponse.call name args ∧
        demoToolFail name args = Except.error "backend unavailable" :=
  c10_failure_history demoLlmFail demoToolFail 4 [Msg.user "q1"]
    [Msg.user "q1"] "backend unavailable" (by rfl)

end MCP
